import Mathlib

/- Verification of the identity-reconciliation service.

   Shallow embedding of the contact-resolution algorithm from
   src/services/ContactService.ts (class ContactService), the contact entity
   from src/entities/Contact.ts and the request handler from src/index.ts.
   Timestamps are modelled as natural-number ticks; the database is a list of
   rows plus the next auto-increment id.  Optional string columns are
   Option String; the JavaScript notion of a falsy string (undefined, null or
   the empty string) is captured by the predicate truthy below. -/

/-- Link precedence of a contact row (enum LinkPrecedence in
src/entities/Contact.ts). -/
inductive LinkPrecedence where
  | primary
  | secondary
deriving DecidableEq, Repr, Inhabited

/-- One row of the contacts table (entity Contact in src/entities/Contact.ts).
The relation fields primaryContact and secondaryContacts are not stored on the
row; they are computed from linkedId when an entity is loaded. -/
structure Contact where
  id : Nat
  phoneNumber : Option String
  email : Option String
  linkedId : Option Nat
  linkPrecedence : LinkPrecedence
  createdAt : Nat
  updatedAt : Nat
  deletedAt : Option Nat
deriving DecidableEq, Repr, Inhabited

/-- The database: the contacts table plus the auto-increment counter backing
PrimaryGeneratedColumn. -/
structure Store where
  rows : List Contact
  nextId : Nat
deriving DecidableEq, Repr, Inhabited

/-- The body of a successful identify response (interface
ConsolidatedContactResponse in src/services/ContactService.ts). -/
structure ConsolidatedContact where
  primaryContactId : Nat
  emails : List String
  phoneNumbers : List String
  secondaryContactIds : List Nat
deriving DecidableEq, Repr, Inhabited

/-- An entity as returned by a repository fetch: the row data together with
the secondaryContacts relation when that relation was requested.  A fetch with
relations loads them one level deep only, so entities reached through another
entity's relation, and entities returned by findOneBy, carry none here. -/
structure LoadedContact where
  data : Contact
  secondaryContacts : Option (List Contact)
deriving DecidableEq, Repr, Inhabited

/-- JavaScript truthiness of an optional string: undefined, null and the empty
string are falsy. -/
def truthy : Option String → Bool
  | none => false
  | some s => !s.isEmpty

/-- The expression (value || null) used when building a new contact row. -/
def orNull (o : Option String) : Option String :=
  if truthy o then o else none

/-- Repository lookup by primary key (findOneBy / findOne with an id filter). -/
def findById (s : Store) (i : Nat) : Option Contact :=
  s.rows.find? (fun r => r.id == i)

/-- The secondaryContacts relation of the row with the given id: every row
whose linkedId names it. -/
def secondariesOf (s : Store) (i : Nat) : List Contact :=
  s.rows.filter (fun r => r.linkedId == some i)

/-- The candidate fetch: every row whose email matches the given email or
whose phoneNumber matches the given phone number, one where-clause per
provided (truthy) value, as in ContactService.identifyContact. -/
def findByEmailOrPhone (s : Store) (email phoneNumber : Option String) : List Contact :=
  s.rows.filter (fun r =>
    (truthy email && r.email == email) || (truthy phoneNumber && r.phoneNumber == phoneNumber))

/-- The continuation condition of the while loop in findUltimatePrimary:
the current row is secondary and has a linkedId. -/
def fupCond (c : Contact) : Bool :=
  c.linkPrecedence == LinkPrecedence.secondary && c.linkedId.isSome

/-- The while loop of ContactService.findUltimatePrimary, with explicit fuel:
while the current row is secondary and has a linkedId, fetch the parent; if
the parent is missing, break and keep the last resolved row.  The source loop
carries no fuel; see the development around claim C9 for its behaviour on
cyclic link data. -/
def fupLoop (s : Store) : Nat → Contact → Contact
  | 0, c => c
  | fuel + 1, c =>
    if fupCond c then
      match c.linkedId.bind (findById s) with
      | some parent => fupLoop s fuel parent
      | none => c
    else c

/-- ContactService.findUltimatePrimary.  Fuel rows.length + 1 reproduces every
terminating execution of the source loop: a terminating run never revisits a
row (a revisit would repeat forever, the step being deterministic), so it takes
at most rows.length steps. -/
def findUltimatePrimary (s : Store) (c : Contact) : Contact :=
  fupLoop s (s.rows.length + 1) c

/-- The cluster-expansion loop over initialMatchingContacts: a matched primary
contributes itself (with its loaded secondaryContacts relation) followed by
those secondaries; a matched secondary with a loaded primaryContact contributes
the ultimate primary of that parent, whose own secondaryContacts relation is
not loaded (nested relations are not fetched); a matched secondary without a
parent contributes nothing. -/
def expandStep (s : Store) (acc : List LoadedContact) (c : Contact) : List LoadedContact :=
  if c.linkPrecedence = LinkPrecedence.primary then
    acc ++ ⟨c, some (secondariesOf s c.id)⟩ ::
      (secondariesOf s c.id).map (fun x => ⟨x, none⟩)
  else
    match c.linkedId.bind (findById s) with
    | some p => acc ++ [⟨findUltimatePrimary s p, none⟩]
    | none => acc

/-- The accumulation over all matched contacts. -/
def expandMatches (s : Store) (matched : List Contact) : List LoadedContact :=
  matched.foldl (expandStep s) []

/-- One Map.set step on an association list keyed by id: an existing key keeps
its position but takes the new value, a new key is appended. -/
def mapSet (m : List (Nat × LoadedContact)) (k : Nat) (v : LoadedContact) :
    List (Nat × LoadedContact) :=
  if m.any (fun kv => kv.1 == k) then
    m.map (fun kv => if kv.1 == k then (k, v) else kv)
  else m ++ [(k, v)]

/-- Deduplication of the accumulated entities by id through a JavaScript Map:
first-insertion key order, last-set value. -/
def dedupById (l : List LoadedContact) : List LoadedContact :=
  (l.foldl (fun m c => mapSet m c.data.id c) []).map Prod.snd

/-- Stable insertion into a list ordered by ascending createdAt. -/
def insertByCreatedAt (c : LoadedContact) : List LoadedContact → List LoadedContact
  | [] => [c]
  | x :: xs =>
    if c.data.createdAt ≤ x.data.createdAt then c :: x :: xs
    else x :: insertByCreatedAt c xs

/-- The stable sort by ascending createdAt applied to existingContacts. -/
def sortByCreatedAt (l : List LoadedContact) : List LoadedContact :=
  l.foldr insertByCreatedAt []

/-- existingContacts as computed by identifyContact: candidate fetch, cluster
expansion, deduplication by id, sort by ascending createdAt. -/
def existingOf (s : Store) (email phoneNumber : Option String) : List LoadedContact :=
  sortByCreatedAt (dedupById (expandMatches s (findByEmailOrPhone s email phoneNumber)))

/-- The primaryContacts subset of existingContacts, in sorted order. -/
def primariesOf (s : Store) (email phoneNumber : Option String) : List LoadedContact :=
  (existingOf s email phoneNumber).filter
    (fun c => c.data.linkPrecedence == LinkPrecedence.primary)

/-- chosenPrimary: the oldest primary when one exists, otherwise the ultimate
primary of the oldest existing contact.  The default branch is unreachable
whenever existingContacts is non-empty is consulted by identifyContact. -/
def chosenOf (s : Store) (email phoneNumber : Option String) : Contact :=
  match primariesOf s email phoneNumber with
  | c :: _ => c.data
  | [] =>
    match existingOf s email phoneNumber with
    | c :: _ => findUltimatePrimary s c.data
    | [] => default

/-- Repository save of an entity that carries an id: the matching row is
overwritten with the entity's fields and updatedAt is refreshed.  Every entity
the service saves this way names an existing row. -/
def saveRow (s : Store) (c : Contact) (now : Nat) : Store :=
  { s with rows := s.rows.map (fun r => if r.id = c.id then { c with updatedAt := now } else r) }

/-- Repository save of a freshly created entity: it receives the next
generated id and is appended to the table. -/
def saveNew (s : Store) (c : Contact) : Store :=
  { rows := s.rows ++ [c], nextId := s.nextId + 1 }

/-- Demotion of one non-chosen primary during a merge: rewrite it to secondary
linked to the chosen primary and save it, then re-point and save each entity of
its loaded secondaryContacts relation (when that relation was loaded; the
length-zero guard of the source is the empty fold here). -/
def demoteOne (chosenId now : Nat) (s : Store) (other : LoadedContact) : Store :=
  let s1 := saveRow s
    { other.data with linkedId := some chosenId, linkPrecedence := LinkPrecedence.secondary } now
  match other.secondaryContacts with
  | some secs =>
    secs.foldl (fun t sec => saveRow t { sec with linkedId := some chosenId } now) s1
  | none => s1

/-- The merge loop over every primary after the first (the source runs it only
when more than one primary is present; with at most one the list is empty and
the fold is the identity). -/
def mergeStore (s : Store) (now chosenId : Nat) (others : List LoadedContact) : Store :=
  others.foldl (demoteOne chosenId now) s

/-- The store after the merge step of identifyContact. -/
def mergedStoreOf (s : Store) (now : Nat) (email phoneNumber : Option String) : Store :=
  mergeStore s now (chosenOf s email phoneNumber).id
    ((primariesOf s email phoneNumber).drop 1)

/-- isNewEmail: a truthy email was submitted and no accumulated contact
carries it. -/
def isNewEmailFlag (existing : List LoadedContact) (email : Option String) : Bool :=
  truthy email && !(existing.any (fun c => c.data.email == email))

/-- isNewPhoneNumber: a truthy phone number was submitted and no accumulated
contact carries it. -/
def isNewPhoneFlag (existing : List LoadedContact) (phoneNumber : Option String) : Bool :=
  truthy phoneNumber && !(existing.any (fun c => c.data.phoneNumber == phoneNumber))

/-- The exact-pair probe: some accumulated contact carries both submitted
values verbatim. -/
def hasExactPair (existing : List LoadedContact) (email phoneNumber : Option String) : Bool :=
  existing.any (fun c => c.data.email == email && c.data.phoneNumber == phoneNumber)

/-- The decision to create a new secondary row, as in the source: some
submitted value is new to the accumulated set, and, when both values are
submitted, the exact pair is absent from it; the trailing conjunct mirrors the
re-check of the source's inner if. -/
def createNewSecondaryFlag (existing : List LoadedContact) (email phoneNumber : Option String) :
    Bool :=
  (isNewEmailFlag existing email || isNewPhoneFlag existing phoneNumber) &&
    (if truthy email && truthy phoneNumber then !(hasExactPair existing email phoneNumber)
     else true) &&
    (isNewEmailFlag existing email || isNewPhoneFlag existing phoneNumber)

/-- The fresh primary row built when nothing matched. -/
def newPrimary (s : Store) (now : Nat) (email phoneNumber : Option String) : Contact :=
  { id := s.nextId, phoneNumber := orNull phoneNumber, email := orNull email,
    linkedId := none, linkPrecedence := LinkPrecedence.primary,
    createdAt := now, updatedAt := now, deletedAt := none }

/-- The fresh secondary row built when the submission carries new
information, linked to the chosen primary. -/
def newSecondary (s : Store) (now chosenId : Nat) (email phoneNumber : Option String) : Contact :=
  { id := s.nextId, phoneNumber := orNull phoneNumber, email := orNull email,
    linkedId := some chosenId, linkPrecedence := LinkPrecedence.secondary,
    createdAt := now, updatedAt := now, deletedAt := none }

/-- The store after the merge step and the possible creation of a new
secondary row. -/
def finalStoreOf (s : Store) (now : Nat) (email phoneNumber : Option String) : Store :=
  if createNewSecondaryFlag (existingOf s email phoneNumber) email phoneNumber then
    saveNew (mergedStoreOf s now email phoneNumber)
      (newSecondary (mergedStoreOf s now email phoneNumber) now
        (chosenOf s email phoneNumber).id email phoneNumber)
  else mergedStoreOf s now email phoneNumber

/-- One Set.add step: insertion-ordered, duplicates ignored. -/
def jsSetAdd (l : List String) (x : String) : List String :=
  if x ∈ l then l else l ++ [x]

/-- The initial Set contents: the primary's own truthy value, if any. -/
def optTruthyList : Option String → List String
  | some v => if v.isEmpty then [] else [v]
  | none => []

/-- The Set built by formatResponse: the primary's own value first, then every
truthy value of the listed contacts in encounter order. -/
def collectValues (pv : Option String) (cs : List Contact) (proj : Contact → Option String) :
    List String :=
  cs.foldl
    (fun acc c =>
      match proj c with
      | some v => if v.isEmpty then acc else jsSetAdd acc v
      | none => acc)
    (optTruthyList pv)

/-- The distinct-value array of formatResponse: the primary's value is placed
first, the remaining set contents follow with the primary's value filtered
out, and falsy entries are dropped. -/
def distinctWithPrimaryFirst (pv : Option String) (collected : List String) : List String :=
  optTruthyList pv ++ collected.filter (fun v => !(some v == pv))

/-- Stable insertion into an ascending list of numbers. -/
def insertNatAsc (n : Nat) : List Nat → List Nat
  | [] => [n]
  | x :: xs => if n ≤ x then n :: x :: xs else x :: insertNatAsc n xs

/-- The ascending numeric sort applied to secondaryContactIds. -/
def sortNatAsc (l : List Nat) : List Nat :=
  l.foldr insertNatAsc []

/-- ContactService.formatResponse: the consolidated view of a primary and a
list of secondaries. -/
def formatResponse (primary : Contact) (secondaries : List Contact) : ConsolidatedContact :=
  let allContacts := primary :: secondaries
  { primaryContactId := primary.id
    emails := distinctWithPrimaryFirst primary.email
      (collectValues primary.email allContacts (fun c => c.email))
    phoneNumbers := distinctWithPrimaryFirst primary.phoneNumber
      (collectValues primary.phoneNumber allContacts (fun c => c.phoneNumber))
    secondaryContactIds := sortNatAsc (secondaries.map (fun c => c.id)) }

/-- The message of the validation error thrown when both identifiers are
absent. -/
def validationMessage : String :=
  "Email or phone number must be provided."

/-- ContactService.identifyContact: validate, fetch and expand candidates,
create a fresh primary when nothing matched, otherwise merge the primaries,
possibly create a new secondary, re-fetch the chosen primary with its
secondaries and format the response.  Errors are the thrown exceptions of the
source. -/
def identifyContact (s : Store) (now : Nat) (email phoneNumber : Option String) :
    Except String (Store × ConsolidatedContact) :=
  if !truthy email && !truthy phoneNumber then
    Except.error validationMessage
  else if existingOf s email phoneNumber = [] then
    let c := newPrimary s now email phoneNumber
    Except.ok (saveNew s c, formatResponse c [])
  else
    match findById (finalStoreOf s now email phoneNumber) (chosenOf s email phoneNumber).id with
    | some finalPrimary =>
      Except.ok (finalStoreOf s now email phoneNumber,
        formatResponse finalPrimary
          (secondariesOf (finalStoreOf s now email phoneNumber) finalPrimary.id))
    | none => Except.error "Primary contact disappeared unexpectedly"

/-- The transport-level outcome of a POST to the identify route
(src/index.ts). -/
inductive HttpResponse where
  | ok (body : ConsolidatedContact)
  | badRequest (message : String)
  | serverError
deriving DecidableEq, Repr

/-- The identify request handler of src/index.ts: a success is a 200 with the
consolidated body, the validation error message is surfaced as a 400 carrying
that message, anything else as a 500. -/
def postIdentify (s : Store) (now : Nat) (email phoneNumber : Option String) :
    Store × HttpResponse :=
  match identifyContact s now email phoneNumber with
  | Except.ok (s1, view) => (s1, HttpResponse.ok view)
  | Except.error message =>
    (s, if message = validationMessage then HttpResponse.badRequest message
        else HttpResponse.serverError)

/-- Run a sequence of identify submissions, each given as (now, email,
phoneNumber), threading the store; a failed submission leaves it unchanged. -/
def runSeq : Store → List (Nat × Option String × Option String) → Store
  | s, [] => s
  | s, (now, e, p) :: rest =>
    match identifyContact s now e p with
    | Except.ok (s1, _) => runSeq s1 rest
    | Except.error _ => runSeq s rest

/-- The view returned by one submission, when it succeeds. -/
def viewOf (s : Store) (now : Nat) (email phoneNumber : Option String) :
    Option ConsolidatedContact :=
  (identifyContact s now email phoneNumber).toOption.map Prod.snd

/-- The empty database. -/
def emptyStore : Store :=
  { rows := [], nextId := 1 }

/-- Shorthand for a contact row with updatedAt equal to createdAt and no
soft-delete marker. -/
def mkContact (id : Nat) (email phoneNumber : Option String) (linkedId : Option Nat)
    (lp : LinkPrecedence) (createdAt : Nat) : Contact :=
  { id := id, phoneNumber := phoneNumber, email := email, linkedId := linkedId,
    linkPrecedence := lp, createdAt := createdAt, updatedAt := createdAt, deletedAt := none }

/-- The no-orphan-chain invariant of the data model: no row's linkedId names a
row whose own precedence is secondary. -/
def noOrphanChain (s : Store) : Prop :=
  ∀ r ∈ s.rows, ∀ q ∈ s.rows, r.linkedId = some q.id →
    q.linkPrecedence = LinkPrecedence.primary

/-- Basic soundness of the auto-increment counter: every row id, and every id
a row links to, lies below the next generated id. -/
def WellFormed (s : Store) : Prop :=
  ∀ r ∈ s.rows, r.id < s.nextId ∧ ∀ l, r.linkedId = some l → l < s.nextId

/-- Some row of the store carries the given id. -/
def hasId (s : Store) (i : Nat) : Prop :=
  ∃ r ∈ s.rows, r.id = i

/-- What the expansion guarantees of every accumulated entity: its row is in
the store, and its secondaryContacts relation, when loaded, is the relation of
its own id computed at fetch time. -/
def GoodEntity (s : Store) (lc : LoadedContact) : Prop :=
  lc.data ∈ s.rows ∧
    (lc.secondaryContacts = none ∨
      lc.secondaryContacts = some (secondariesOf s lc.data.id))

/-- The ordering of loaded entities used by the sort of existingContacts. -/
def LeByCreated (a b : LoadedContact) : Prop :=
  a.data.createdAt ≤ b.data.createdAt

/-- The ids of the primaries demoted by the merge step of one invocation. -/
def demotedIdsOf (s : Store) (email phoneNumber : Option String) : List Nat :=
  ((primariesOf s email phoneNumber).drop 1).map (fun c => c.data.id)

/-- What the frame property of one invocation asserts of a store t reachable
from the fetched store: same table length, every row keeps its position, id,
email, phoneNumber, createdAt and deletedAt, and a row whose linkPrecedence or
linkedId moved is either one of the touched (demoted) rows or a row that
linked to a touched row. -/
def FramePreserved (base : Store) (touched : List Nat) (t : Store) : Prop :=
  base.rows.length = t.rows.length ∧
  ∀ i (h : i < base.rows.length) (h2 : i < t.rows.length),
    t.rows[i].id = base.rows[i].id ∧
    t.rows[i].email = base.rows[i].email ∧
    t.rows[i].phoneNumber = base.rows[i].phoneNumber ∧
    t.rows[i].createdAt = base.rows[i].createdAt ∧
    t.rows[i].deletedAt = base.rows[i].deletedAt ∧
    (t.rows[i].linkPrecedence = base.rows[i].linkPrecedence ∧
        t.rows[i].linkedId = base.rows[i].linkedId ∨
      base.rows[i].id ∈ touched ∨
      ∃ d ∈ touched, base.rows[i].linkedId = some d)

/-- What justifies one repository update during a merge: the written entity
agrees with a fetched row on id and every frame field, and that row is either
itself touched or linked to a touched row. -/
def SaveOK (base : Store) (touched : List Nat) (c : Contact) : Prop :=
  ∃ orig ∈ base.rows, orig.id = c.id ∧ c.email = orig.email ∧
    c.phoneNumber = orig.phoneNumber ∧ c.createdAt = orig.createdAt ∧
    c.deletedAt = orig.deletedAt ∧
    (orig.id ∈ touched ∨ ∃ d ∈ touched, orig.linkedId = some d)

/-- Specification-side first-encounter deduplication of a value list. -/
def firstDedup (l : List String) : List String :=
  l.foldl jsSetAdd []

/-- A projected column value when it is truthy, nothing otherwise. -/
def truthyVal : Option String → Option String
  | some v => if v.isEmpty then none else some v
  | none => none

/-- Specification-side rendering of one distinct-value list of the response:
the primary's own value first when present, followed by every other distinct
non-null value of the cluster in the order first encountered. -/
def specValues (pv : Option String) (cluster : List Contact)
    (proj : Contact → Option String) : List String :=
  firstDedup (optTruthyList pv ++ cluster.filterMap (fun c => truthyVal (proj c)))

/-- A submission sequence that first builds two separate identities, attaches
a secondary to the newer one, and then bridges both clusters through a
submission matching the older primary directly and the newer cluster only
through its secondary. -/
def seqMergeBug : List (Nat × Option String × Option String) :=
  [(1, some "a", some "u"), (2, none, some "q"), (3, some "b", some "q"), (4, some "b", some "u")]

/-- The store after the first three submissions of seqMergeBug: primary 1,
primary 2 and secondary 3 linked to 2. -/
def storeMergeBug3 : Store :=
  runSeq emptyStore (seqMergeBug.take 3)

/-- The store after all four submissions of seqMergeBug. -/
def storeMergeBug : Store :=
  runSeq emptyStore seqMergeBug

/-- A submission sequence that builds one cluster whose email c and phone u
live only on secondary rows, then submits the pair (c, u) twice in a row. -/
def seqDup : List (Nat × Option String × Option String) :=
  [(1, some "a", some "w"), (2, some "c", some "w"), (3, some "c", some "u")]

/-- The store after the first two submissions of seqDup. -/
def storeDup2 : Store :=
  runSeq emptyStore (seqDup.take 2)

/-- The store after all three submissions of seqDup. -/
def storeDup3 : Store :=
  runSeq emptyStore seqDup

/-- The store after seqDup followed by a repeat of its final submission. -/
def storeDup4 : Store :=
  runSeq emptyStore (seqDup ++ [(4, some "c", some "u")])

/-- A row that is secondary and links to cyclicB. -/
def cyclicA : Contact :=
  mkContact 1 (some "a") none (some 2) LinkPrecedence.secondary 1

/-- A row that is secondary and links to cyclicA. -/
def cyclicB : Contact :=
  mkContact 2 (some "b") none (some 1) LinkPrecedence.secondary 2

/-- An inconsistent store whose two rows link to each other as secondaries. -/
def cyclicStore : Store :=
  { rows := [cyclicA, cyclicB], nextId := 3 }

/-- A store holding two primaries whose creation order disagrees with their
id order: row 1 was created later (tick 5) than row 2 (tick 3). -/
def wStore : Store :=
  { rows := [mkContact 1 (some "a") none none LinkPrecedence.primary 5,
             mkContact 2 none (some "q") none LinkPrecedence.primary 3],
    nextId := 3 }

/-- The store left behind by a fresh-identity submission of the email a on the
empty store. -/
def w8Store : Store :=
  { rows := [mkContact 1 (some "a") none none LinkPrecedence.primary 1], nextId := 2 }

/-- The view returned by that fresh-identity submission. -/
def w8Resp : ConsolidatedContact :=
  { primaryContactId := 1, emails := ["a"], phoneNumbers := [], secondaryContactIds := [] }

/-- The store left behind by the bridging submission on wStore: row 1 demoted
under row 2. -/
def w10Store : Store :=
  { rows := [{ id := 1, phoneNumber := none, email := some "a", linkedId := some 2,
               linkPrecedence := LinkPrecedence.secondary, createdAt := 5, updatedAt := 9,
               deletedAt := none },
             mkContact 2 none (some "q") none LinkPrecedence.primary 3],
    nextId := 3 }

/-- The view returned by that bridging submission. -/
def w10Resp : ConsolidatedContact :=
  { primaryContactId := 2, emails := ["a"], phoneNumbers := ["q"],
    secondaryContactIds := [1] }

/-- The no-orphan-chain invariant is checkable on a concrete store. -/
instance (s : Store) : Decidable (noOrphanChain s) := by
  unfold noOrphanChain; infer_instance

/- Theorems. -/

/-- Stepping the chain walk once from cyclicA lands on cyclicB with one unit
of fuel consumed, and symmetrically. -/
theorem cyclic_step (n : Nat) :
    fupLoop cyclicStore (n + 1) cyclicA = fupLoop cyclicStore n cyclicB ∧
    fupLoop cyclicStore (n + 1) cyclicB = fupLoop cyclicStore n cyclicA :=
  ⟨rfl, rfl⟩

/-- However much fuel is granted, the chain walk started at cyclicA or at
cyclicB only ever occupies those two rows. -/
theorem cyclic_states (n : Nat) :
    (fupLoop cyclicStore n cyclicA = cyclicA ∨ fupLoop cyclicStore n cyclicA = cyclicB) ∧
    (fupLoop cyclicStore n cyclicB = cyclicA ∨ fupLoop cyclicStore n cyclicB = cyclicB) := by
  induction n with
  | zero => exact ⟨Or.inl rfl, Or.inr rfl⟩
  | succ n ih =>
    refine ⟨?_, ?_⟩
    · rw [(cyclic_step n).1]; exact ih.2
    · rw [(cyclic_step n).2]; exact ih.1

/-- C9: the claim says the ultimate-primary chain walk terminates for every
store content, including inconsistent data.  On the two-row cyclic store the
loop condition of findUltimatePrimary still holds after any number of
iterations and every parent fetch succeeds, so the unbounded while loop of the
source never exits: the walk does not terminate there. -/
theorem c9_chain_walk_never_exits (n : Nat) :
    fupCond (fupLoop cyclicStore n cyclicA) = true ∧
    (fupLoop cyclicStore n cyclicA).linkedId.bind (findById cyclicStore) ≠ none := by
  rcases (cyclic_states n).1 with h | h <;> rw [h] <;> exact ⟨rfl, by decide⟩

/-- C2: the claim says that after any finite sequence of Resolve invocations
starting from an invariant-satisfying store, no record links to a secondary.
Refuted: the four submissions of seqMergeBug, run from the empty store, leave
record 3 linked to record 2 while record 2 is itself secondary, because the
merge step never re-points the secondaries of a demoted primary that entered
the accumulated set only through a matched secondary (its secondaryContacts
relation is not loaded on that path). -/
theorem c2_orphan_chain_reachable :
    ¬ noOrphanChain (runSeq emptyStore seqMergeBug) := by
  decide

/-- C3: the claim says every secondary of a demoted primary is re-pointed to
the chosen primary.  Refuted on the fourth submission of seqMergeBug: before
it, record 2 is primary and record 3 is its secondary; the submission demotes
record 2 to a secondary of record 1, yet record 3 still links to record 2
afterwards. -/
theorem c3_secondary_not_repointed :
    (findById storeMergeBug3 2).map Contact.linkPrecedence = some LinkPrecedence.primary ∧
    (findById storeMergeBug3 3).bind Contact.linkedId = some 2 ∧
    (findById storeMergeBug 2).map Contact.linkPrecedence = some LinkPrecedence.secondary ∧
    (findById storeMergeBug 2).bind Contact.linkedId = some 1 ∧
    (findById storeMergeBug 3).bind Contact.linkedId = some 2 := by
  decide

/-- C4: the claim says a repeated submission of the same pair creates no new
record and returns the same view.  Refuted: after storeDup2, submitting
(c, u) creates record 3, and submitting the identical pair again creates
record 4 and returns a strictly larger view, because the repeat submission
matches only secondary rows and the expansion then sees neither them nor
their values. -/
theorem c4_not_idempotent :
    storeDup2.rows.length = 2 ∧
    storeDup3.rows.length = 3 ∧
    storeDup4.rows.length = 4 ∧
    viewOf storeDup2 3 (some "c") (some "u") ≠ viewOf storeDup3 4 (some "c") (some "u") := by
  decide

/-- C5: the claim says that when both values are submitted and the exact pair
already exists verbatim on some record of the cluster, no new record is
created.  Refuted: record 3 of storeDup3 carries exactly (c, u) and links to
the chosen primary 1, yet submitting (c, u) again creates a fourth record. -/
theorem c5_exact_pair_not_suppressed :
    (findById storeDup3 3).map (fun c => (c.email, c.phoneNumber, c.linkedId)) =
      some (some "c", some "u", some 1) ∧
    (viewOf storeDup3 4 (some "c") (some "u")).map ConsolidatedContact.primaryContactId =
      some 1 ∧
    storeDup4.rows.length = storeDup3.rows.length + 1 := by
  decide

/-- Evaluating the distinct-value pipeline of formatResponse on a one-contact
cluster whose projected value is the primary's own value. -/
theorem distinct_collect_single (pv : Option String) (c : Contact)
    (proj : Contact → Option String) (hproj : proj c = pv) :
    distinctWithPrimaryFirst pv (collectValues pv [c] proj) = optTruthyList pv := by
  subst hproj
  unfold collectValues distinctWithPrimaryFirst
  cases hpc : proj c with
  | none => simp [hpc, optTruthyList]
  | some v =>
    by_cases hv : v.isEmpty
    · simp [hpc, hv, optTruthyList]
    · simp [hpc, hv, optTruthyList, jsSetAdd]

/-- formatResponse on a primary with no secondaries returns its id, its own
truthy values and an empty secondary list. -/
theorem formatResponse_single (c : Contact) :
    formatResponse c [] =
      { primaryContactId := c.id, emails := optTruthyList c.email,
        phoneNumbers := optTruthyList c.phoneNumber, secondaryContactIds := [] } := by
  simp only [formatResponse]
  rw [distinct_collect_single c.email c _ rfl, distinct_collect_single c.phoneNumber c _ rfl]
  rfl

/-- C6: when both identifiers are absent or empty, Resolve fails with the
validation error before touching the store, and the transport surfaces it as a
400 carrying exactly that message, leaving the store unchanged. -/
theorem c6_validation_rejected (s : Store) (now : Nat) (email phoneNumber : Option String)
    (he : truthy email = false) (hp : truthy phoneNumber = false) :
    identifyContact s now email phoneNumber = Except.error validationMessage ∧
    postIdentify s now email phoneNumber = (s, HttpResponse.badRequest validationMessage) := by
  have h1 : identifyContact s now email phoneNumber = Except.error validationMessage := by
    unfold identifyContact
    rw [he, hp]
    rfl
  refine ⟨h1, ?_⟩
  unfold postIdentify
  rw [h1]
  simp

/-- Witness for C6 at the concrete input (null email, empty phone). -/
theorem c6_validation_rejected_witness :
    (truthy (none : Option String) = false ∧ truthy (some "") = false) ∧
    identifyContact emptyStore 1 none (some "") = Except.error validationMessage ∧
    postIdentify emptyStore 1 none (some "") =
      (emptyStore, HttpResponse.badRequest validationMessage) :=
  ⟨⟨rfl, rfl⟩, c6_validation_rejected emptyStore 1 none (some "") rfl rfl⟩

/-- C7: when the deduplicated matched set is empty, exactly one new primary
row carrying the submitted values is appended, and the view lists that id, the
submitted values and no secondaries. -/
theorem c7_fresh_primary (s : Store) (now : Nat) (email phoneNumber : Option String)
    (hv : truthy email = true ∨ truthy phoneNumber = true)
    (hempty : existingOf s email phoneNumber = []) :
    identifyContact s now email phoneNumber =
      Except.ok ({ rows := s.rows ++ [newPrimary s now email phoneNumber],
                   nextId := s.nextId + 1 },
        { primaryContactId := s.nextId
          emails := optTruthyList (orNull email)
          phoneNumbers := optTruthyList (orNull phoneNumber)
          secondaryContactIds := [] }) := by
  have hcond : (!truthy email && !truthy phoneNumber) = false := by
    rcases hv with h | h <;> simp [h]
  unfold identifyContact
  rw [hcond, hempty]
  simp only [Bool.false_eq_true, if_false, if_pos rfl]
  rw [formatResponse_single]
  rfl

/-- Witness for C7 on the empty store with only an email submitted. -/
theorem c7_fresh_primary_witness :
    ((truthy (some "a") = true ∨ truthy (none : Option String) = true) ∧
      existingOf emptyStore (some "a") none = []) ∧
    identifyContact emptyStore 7 (some "a") none =
      Except.ok ({ rows := emptyStore.rows ++ [newPrimary emptyStore 7 (some "a") none],
                   nextId := emptyStore.nextId + 1 },
        { primaryContactId := emptyStore.nextId
          emails := optTruthyList (orNull (some "a"))
          phoneNumbers := optTruthyList (orNull none)
          secondaryContactIds := [] }) :=
  ⟨⟨Or.inl rfl, rfl⟩, c7_fresh_primary emptyStore 7 (some "a") none (Or.inl rfl) rfl⟩

/-- A successful findById returns a member of the table. -/
theorem findById_mem {s : Store} {i : Nat} {c : Contact} (h : findById s i = some c) :
    c ∈ s.rows :=
  List.mem_of_find?_eq_some h

/-- A successful findById returns a row carrying the requested id. -/
theorem findById_id {s : Store} {i : Nat} {c : Contact} (h : findById s i = some c) :
    c.id = i := by
  have hp := List.find?_some h
  simpa using hp

/-- The chain walk stays inside the table. -/
theorem fupLoop_mem {s : Store} (fuel : Nat) {c : Contact} (h : c ∈ s.rows) :
    fupLoop s fuel c ∈ s.rows := by
  induction fuel generalizing c with
  | zero => exact h
  | succ n ih =>
    unfold fupLoop
    by_cases hc : fupCond c = true
    · rw [if_pos hc]
      cases hb : c.linkedId.bind (findById s) with
      | some parent =>
        obtain ⟨l, _, hf⟩ := Option.bind_eq_some.mp hb
        exact ih (findById_mem hf)
      | none => exact h
    · rw [if_neg hc]; exact h

/-- Every entity produced by one expansion step is good, provided the matched
contact is a table row and the accumulator is good. -/
theorem expandStep_good {s : Store} {acc : List LoadedContact} {c : Contact}
    (hacc : ∀ lc ∈ acc, GoodEntity s lc) (hc : c ∈ s.rows) :
    ∀ lc ∈ expandStep s acc c, GoodEntity s lc := by
  intro lc hlc
  unfold expandStep at hlc
  by_cases hp : c.linkPrecedence = LinkPrecedence.primary
  · rw [if_pos hp] at hlc
    rcases List.mem_append.mp hlc with h1 | h1
    · exact hacc lc h1
    · rcases List.mem_cons.mp h1 with h2 | h2
      · subst h2; exact ⟨hc, Or.inr rfl⟩
      · obtain ⟨x, hx, hlc2⟩ := List.mem_map.mp h2
        subst hlc2
        exact ⟨List.mem_of_mem_filter hx, Or.inl rfl⟩
  · rw [if_neg hp] at hlc
    cases hb : c.linkedId.bind (findById s) with
    | some p =>
      rw [hb] at hlc
      rcases List.mem_append.mp hlc with h1 | h1
      · exact hacc lc h1
      · have h2 := List.mem_singleton.mp h1
        subst h2
        obtain ⟨l, _, hf⟩ := Option.bind_eq_some.mp hb
        exact ⟨fupLoop_mem _ (findById_mem hf), Or.inl rfl⟩
    | none => rw [hb] at hlc; exact hacc lc hlc

/-- Every entity accumulated by the expansion fold is good. -/
theorem foldl_expandStep_good {s : Store} :
    ∀ {m : List Contact} {acc : List LoadedContact},
      (∀ lc ∈ acc, GoodEntity s lc) → (∀ c ∈ m, c ∈ s.rows) →
      ∀ lc ∈ m.foldl (expandStep s) acc, GoodEntity s lc := by
  intro m
  induction m with
  | nil => intro acc hacc _ lc hlc; exact hacc lc hlc
  | cons c cs ih =>
    intro acc hacc hm lc hlc
    rw [List.foldl_cons] at hlc
    exact ih (expandStep_good hacc (hm c (List.mem_cons_self c cs)))
      (fun d hd => hm d (List.mem_cons_of_mem c hd)) lc hlc

/-- One Map.set step only yields pairs of the old map or the pair just set. -/
theorem mem_mapSet {m : List (Nat × LoadedContact)} {k : Nat} {v : LoadedContact}
    {kv : Nat × LoadedContact} (h : kv ∈ mapSet m k v) : kv ∈ m ∨ kv = (k, v) := by
  unfold mapSet at h
  by_cases ha : m.any (fun kv => kv.1 == k) = true
  · rw [if_pos ha] at h
    obtain ⟨a, ham, hfa⟩ := List.mem_map.mp h
    by_cases hk : (a.1 == k) = true
    · right; rw [if_pos hk] at hfa; exact hfa.symm
    · left; rw [if_neg hk] at hfa; exact hfa ▸ ham
  · rw [if_neg ha] at h
    rcases List.mem_append.mp h with h1 | h1
    · exact Or.inl h1
    · exact Or.inr (List.mem_singleton.mp h1)

/-- Every pair accumulated by the deduplication fold carries a value from the
input list, unless it was already in the accumulator. -/
theorem foldl_mapSet_mem {l : List LoadedContact} :
    ∀ {acc : List (Nat × LoadedContact)} {kv : Nat × LoadedContact},
      kv ∈ l.foldl (fun m c => mapSet m c.data.id c) acc → kv ∈ acc ∨ kv.2 ∈ l := by
  induction l with
  | nil => intro acc kv h; exact Or.inl h
  | cons c cs ih =>
    intro acc kv h
    rw [List.foldl_cons] at h
    rcases ih h with h1 | h1
    · rcases mem_mapSet h1 with h2 | h2
      · exact Or.inl h2
      · right; rw [h2]; exact List.mem_cons_self c cs
    · exact Or.inr (List.mem_cons_of_mem c h1)

/-- Deduplication only keeps entities of its input. -/
theorem mem_of_mem_dedupById {l : List LoadedContact} {x : LoadedContact}
    (h : x ∈ dedupById l) : x ∈ l := by
  unfold dedupById at h
  obtain ⟨kv, hkv, hsnd⟩ := List.mem_map.mp h
  rcases foldl_mapSet_mem hkv with h1 | h1
  · exact absurd h1 (List.not_mem_nil kv)
  · exact hsnd ▸ h1

/-- Membership through stable insertion. -/
theorem mem_insertByCreatedAt {c x : LoadedContact} {l : List LoadedContact} :
    x ∈ insertByCreatedAt c l ↔ x = c ∨ x ∈ l := by
  induction l with
  | nil => simp [insertByCreatedAt]
  | cons y ys ih =>
    unfold insertByCreatedAt
    by_cases h : c.data.createdAt ≤ y.data.createdAt
    · rw [if_pos h]; simp [List.mem_cons]
    · rw [if_neg h]; simp [List.mem_cons, ih]; tauto

/-- Membership through the stable sort. -/
theorem mem_sortByCreatedAt {x : LoadedContact} {l : List LoadedContact} :
    x ∈ sortByCreatedAt l ↔ x ∈ l := by
  unfold sortByCreatedAt
  induction l with
  | nil => simp
  | cons y ys ih =>
    rw [List.foldr_cons, mem_insertByCreatedAt]
    simp [List.mem_cons, ih]

/-- Every entity of existingContacts is good: its row is in the store and its
loaded relation is the fetch-time relation of its own id. -/
theorem good_of_mem_existing {s : Store} {email phoneNumber : Option String}
    {lc : LoadedContact} (h : lc ∈ existingOf s email phoneNumber) : GoodEntity s lc := by
  unfold existingOf expandMatches at h
  have h1 := mem_of_mem_dedupById (mem_sortByCreatedAt.mp h)
  exact foldl_expandStep_good (fun x hx => absurd hx (List.not_mem_nil x))
    (fun c hc => List.mem_of_mem_filter hc) lc h1

/-- Stable insertion preserves the createdAt ordering. -/
theorem pairwise_insertByCreatedAt {c : LoadedContact} {l : List LoadedContact}
    (h : l.Pairwise LeByCreated) : (insertByCreatedAt c l).Pairwise LeByCreated := by
  induction l with
  | nil => simp [insertByCreatedAt]
  | cons y ys ih =>
    unfold insertByCreatedAt
    obtain ⟨hy, hys⟩ := List.pairwise_cons.mp h
    by_cases hc : c.data.createdAt ≤ y.data.createdAt
    · rw [if_pos hc]
      refine List.pairwise_cons.mpr ⟨?_, h⟩
      intro b hb
      rcases List.mem_cons.mp hb with h1 | h1
      · subst h1; exact hc
      · exact le_trans hc (hy b h1)
    · rw [if_neg hc]
      refine List.pairwise_cons.mpr ⟨?_, ih hys⟩
      intro b hb
      rcases mem_insertByCreatedAt.mp hb with h1 | h1
      · subst h1; exact le_of_not_le hc
      · exact hy b h1

/-- The sort of existingContacts yields an ascending createdAt order. -/
theorem pairwise_sortByCreatedAt (l : List LoadedContact) :
    (sortByCreatedAt l).Pairwise LeByCreated := by
  unfold sortByCreatedAt
  induction l with
  | nil => simp
  | cons y ys ih => exact pairwise_insertByCreatedAt ih

/-- The primaries of existingContacts are in ascending createdAt order. -/
theorem pairwise_primariesOf (s : Store) (email phoneNumber : Option String) :
    (primariesOf s email phoneNumber).Pairwise LeByCreated :=
  List.Pairwise.sublist (List.filter_sublist _) (pairwise_sortByCreatedAt _)

/-- Updating a row by id preserves the presence of every id. -/
theorem hasId_saveRow {s : Store} {i : Nat} (c : Contact) (now : Nat) (h : hasId s i) :
    hasId (saveRow s c now) i := by
  obtain ⟨r, hr, hid⟩ := h
  unfold saveRow
  by_cases hrc : r.id = c.id
  · refine ⟨{ c with updatedAt := now }, List.mem_map.mpr ⟨r, hr, by rw [if_pos hrc]⟩, ?_⟩
    show c.id = i
    rw [← hrc]; exact hid
  · exact ⟨r, List.mem_map.mpr ⟨r, hr, by rw [if_neg hrc]⟩, hid⟩

/-- The re-pointing fold of a merge preserves the presence of every id. -/
theorem hasId_repointFold {i : Nat} (chosenId now : Nat) :
    ∀ (secs : List Contact) (t : Store), hasId t i →
      hasId (secs.foldl (fun u sec => saveRow u { sec with linkedId := some chosenId } now) t) i := by
  intro secs
  induction secs with
  | nil => intro t h; exact h
  | cons x xs ih => intro t h; exact ih _ (hasId_saveRow _ _ h)

/-- Demoting one primary preserves the presence of every id. -/
theorem hasId_demoteOne {chosenId now : Nat} {s : Store} (other : LoadedContact) {i : Nat}
    (h : hasId s i) : hasId (demoteOne chosenId now s other) i := by
  obtain ⟨d, sc⟩ := other
  cases sc with
  | none => exact hasId_saveRow _ _ h
  | some secs => exact hasId_repointFold chosenId now secs _ (hasId_saveRow _ _ h)

/-- The whole merge fold preserves the presence of every id. -/
theorem hasId_mergeStore {now chosenId : Nat} {others : List LoadedContact} :
    ∀ {s : Store} {i : Nat}, hasId s i → hasId (mergeStore s now chosenId others) i := by
  induction others with
  | nil => intro s i h; exact h
  | cons x xs ih =>
    intro s i h
    unfold mergeStore at ih ⊢
    rw [List.foldl_cons]
    exact ih (hasId_demoteOne x h)

/-- Appending a fresh row preserves the presence of every id. -/
theorem hasId_saveNew {s : Store} {c : Contact} {i : Nat} (h : hasId s i) :
    hasId (saveNew s c) i := by
  obtain ⟨r, hr, hid⟩ := h
  exact ⟨r, List.mem_append_left _ hr, hid⟩

/-- The store an invocation leaves behind still carries every id the fetched
store carried. -/
theorem hasId_finalStoreOf {s : Store} {now : Nat} {email phoneNumber : Option String} {i : Nat}
    (h : hasId s i) : hasId (finalStoreOf s now email phoneNumber) i := by
  unfold finalStoreOf mergedStoreOf
  by_cases hc : createNewSecondaryFlag (existingOf s email phoneNumber) email phoneNumber = true
  · rw [if_pos hc]; exact hasId_saveNew (hasId_mergeStore h)
  · rw [if_neg hc]; exact hasId_mergeStore h

/-- When both submitted values are falsy the candidate fetch, and with it the
whole accumulated set, is empty. -/
theorem existingOf_of_falsy {s : Store} {email phoneNumber : Option String}
    (he : truthy email = false) (hp : truthy phoneNumber = false) :
    existingOf s email phoneNumber = [] := by
  have hm : findByEmailOrPhone s email phoneNumber = [] := by
    simp [findByEmailOrPhone, he, hp]
  unfold existingOf
  rw [hm]
  rfl

/-- A non-empty accumulated set means at least one identifier was truthy, so
the validation gate lets the invocation through. -/
theorem validation_passes {s : Store} {email phoneNumber : Option String}
    (hne : existingOf s email phoneNumber ≠ []) :
    (!truthy email && !truthy phoneNumber) = false := by
  cases he : truthy email with
  | false =>
    cases hpp : truthy phoneNumber with
    | false => exact absurd (existingOf_of_falsy he hpp) hne
    | true => simp [hpp]
  | true => simp [he]

/-- The chosen primary is always a row of the fetched store when the
accumulated set is non-empty. -/
theorem chosenOf_mem {s : Store} {email phoneNumber : Option String}
    (hne : existingOf s email phoneNumber ≠ []) :
    chosenOf s email phoneNumber ∈ s.rows := by
  unfold chosenOf
  cases hp : primariesOf s email phoneNumber with
  | cons c rest =>
    have hc : c ∈ primariesOf s email phoneNumber := by
      rw [hp]; exact List.mem_cons_self c rest
    exact (good_of_mem_existing (List.mem_of_mem_filter hc)).1
  | nil =>
    cases he : existingOf s email phoneNumber with
    | nil => exact absurd he hne
    | cons c rest =>
      have hc : c ∈ existingOf s email phoneNumber := by
        rw [he]; exact List.mem_cons_self c rest
      exact fupLoop_mem _ (good_of_mem_existing hc).1

/-- When the accumulated set is non-empty the invocation succeeds: the final
re-fetch finds a row carrying the chosen primary's id and the response is
formatted from that row and its secondaries in the final store. -/
theorem identify_ok_shape (s : Store) (now : Nat) (email phoneNumber : Option String)
    (hne : existingOf s email phoneNumber ≠ []) :
    ∃ fp, findById (finalStoreOf s now email phoneNumber) (chosenOf s email phoneNumber).id
        = some fp ∧
      fp.id = (chosenOf s email phoneNumber).id ∧
      identifyContact s now email phoneNumber =
        Except.ok (finalStoreOf s now email phoneNumber,
          formatResponse fp
            (secondariesOf (finalStoreOf s now email phoneNumber) fp.id)) := by
  have hid : hasId (finalStoreOf s now email phoneNumber) (chosenOf s email phoneNumber).id :=
    hasId_finalStoreOf ⟨_, chosenOf_mem hne, rfl⟩
  obtain ⟨r, hr, hrid⟩ := hid
  have hsome :
      (findById (finalStoreOf s now email phoneNumber)
        (chosenOf s email phoneNumber).id).isSome := by
    unfold findById
    rw [List.find?_isSome]
    exact ⟨r, hr, by simp [hrid]⟩
  obtain ⟨fp, hfp⟩ := Option.isSome_iff_exists.mp hsome
  refine ⟨fp, hfp, findById_id hfp, ?_⟩
  unfold identifyContact
  rw [validation_passes hne]
  simp only [Bool.false_eq_true, if_false]
  rw [if_neg hne, hfp]

/-- C1: whenever the matched, deduplicated record set contains at least one
record flagged primary, the invocation succeeds and the returned
primaryContactId is the id of the head of the primary subset — a record whose
createdAt is minimal among all matched records flagged primary, so seniority
and nothing else decides the surviving primary. -/
theorem c1_seniority (s : Store) (now : Nat) (email phoneNumber : Option String)
    (ch : LoadedContact) (rest : List LoadedContact)
    (hp : primariesOf s email phoneNumber = ch :: rest) :
    ∃ s2 resp, identifyContact s now email phoneNumber = Except.ok (s2, resp) ∧
      resp.primaryContactId = ch.data.id ∧
      ∀ q ∈ primariesOf s email phoneNumber, ch.data.createdAt ≤ q.data.createdAt := by
  have hne : existingOf s email phoneNumber ≠ [] := by
    intro h
    unfold primariesOf at hp
    rw [h] at hp
    exact List.noConfusion hp
  obtain ⟨fp, hfp, hfpid, hok⟩ := identify_ok_shape s now email phoneNumber hne
  have hch : chosenOf s email phoneNumber = ch.data := by
    unfold chosenOf
    rw [hp]
  refine ⟨_, _, hok, ?_, ?_⟩
  · show fp.id = ch.data.id
    rw [hfpid, hch]
  · intro q hq
    have hpw := pairwise_primariesOf s email phoneNumber
    rw [hp] at hpw
    rcases List.mem_cons.mp (hp ▸ hq) with h1 | h1
    · subst h1; exact le_refl _
    · exact (List.pairwise_cons.mp hpw).1 q h1

/-- Witness for C1: on wStore a submission bridging both primaries returns
row 2, the older primary, even though row 1 was matched first. -/
theorem c1_seniority_witness :
    primariesOf wStore (some "a") (some "q") =
      ⟨mkContact 2 none (some "q") none LinkPrecedence.primary 3, some []⟩ ::
        [⟨mkContact 1 (some "a") none none LinkPrecedence.primary 5, some []⟩] ∧
    ∃ s2 resp, identifyContact wStore 9 (some "a") (some "q") = Except.ok (s2, resp) ∧
      resp.primaryContactId =
        (mkContact 2 none (some "q") none LinkPrecedence.primary 3).id ∧
      ∀ q ∈ primariesOf wStore (some "a") (some "q"),
        (mkContact 2 none (some "q") none LinkPrecedence.primary 3).createdAt ≤
          q.data.createdAt :=
  ⟨by decide,
    c1_seniority wStore 9 (some "a") (some "q")
      ⟨mkContact 2 none (some "q") none LinkPrecedence.primary 3, some []⟩
      [⟨mkContact 1 (some "a") none none LinkPrecedence.primary 5, some []⟩]
      (by decide)⟩


/-- Adding a value already present leaves the Set unchanged. -/
theorem jsSetAdd_of_mem {l : List String} {x : String} (h : x ∈ l) : jsSetAdd l x = l := by
  unfold jsSetAdd
  rw [if_pos h]

/-- Adding a new value appends it. -/
theorem jsSetAdd_of_not_mem {l : List String} {x : String} (h : x ∉ l) :
    jsSetAdd l x = l ++ [x] := by
  unfold jsSetAdd
  rw [if_neg h]

/-- A fold of Set.add steps appends exactly the input values not yet present,
each at most once. -/
theorem foldl_jsSetAdd_split :
    ∀ (vals acc : List String),
      ∃ t, vals.foldl jsSetAdd acc = acc ++ t ∧ ∀ w ∈ t, w ∉ acc ∧ w ∈ vals := by
  intro vals
  induction vals with
  | nil => intro acc; exact ⟨[], by simp, by simp⟩
  | cons v vs ih =>
    intro acc
    rw [List.foldl_cons]
    by_cases hv : v ∈ acc
    · rw [jsSetAdd_of_mem hv]
      obtain ⟨t, ht, hw⟩ := ih acc
      exact ⟨t, ht, fun w hwt =>
        ⟨(hw w hwt).1, List.mem_cons_of_mem _ (hw w hwt).2⟩⟩
    · rw [jsSetAdd_of_not_mem hv]
      obtain ⟨t, ht, hw⟩ := ih (acc ++ [v])
      refine ⟨v :: t, by rw [ht]; simp, ?_⟩
      intro w hwt
      rcases List.mem_cons.mp hwt with h1 | h1
      · subst h1; exact ⟨hv, List.mem_cons_self _ _⟩
      · refine ⟨fun hcon => (hw w h1).1 (List.mem_append_left _ hcon), ?_⟩
        exact List.mem_cons_of_mem _ (hw w h1).2

/-- The truthy projection of a contact list only yields non-empty strings. -/
theorem filterMap_truthy_ne_empty {cs : List Contact} {proj : Contact → Option String}
    {w : String}
    (h : w ∈ cs.filterMap (fun c => truthyVal (proj c))) : w.isEmpty = false := by
  obtain ⟨c, _, hc⟩ := List.mem_filterMap.mp h
  cases hpc : proj c with
  | none => rw [hpc] at hc; exact absurd hc (by simp [truthyVal])
  | some v =>
    rw [hpc] at hc
    by_cases hv : v.isEmpty
    · rw [show truthyVal (some v) = none by simp [truthyVal, hv]] at hc
      exact absurd hc (by simp)
    · rw [show truthyVal (some v) = some v by simp [truthyVal, hv]] at hc
      have hvw := Option.some.inj hc
      subst hvw
      simpa using hv

/-- The Set fold of formatResponse over a contact list is a Set.add fold over
the list of its truthy projected values. -/
theorem collect_foldl_eq (proj : Contact → Option String) :
    ∀ (cs : List Contact) (acc : List String),
      cs.foldl (fun acc c =>
        match proj c with
        | some v => if v.isEmpty then acc else jsSetAdd acc v
        | none => acc) acc =
      (cs.filterMap (fun c => truthyVal (proj c))).foldl jsSetAdd acc := by
  intro cs
  induction cs with
  | nil => intro acc; rfl
  | cons c cs ih =>
    intro acc
    cases hpc : proj c with
    | none => simp [List.foldl_cons, List.filterMap_cons, hpc, truthyVal, ih]
    | some v =>
      by_cases hv : v.isEmpty
      · simp [List.foldl_cons, List.filterMap_cons, hpc, hv, truthyVal, ih]
      · simp [List.foldl_cons, List.filterMap_cons, hpc, hv, truthyVal, ih]

/-- First-encounter deduplication across an append is a fold on top of the
deduplication of the left part. -/
theorem firstDedup_append (l1 l2 : List String) :
    firstDedup (l1 ++ l2) = l2.foldl jsSetAdd (firstDedup l1) := by
  unfold firstDedup
  rw [List.foldl_append]

/-- Deduplicating the at-most-one-element primary value list is the identity. -/
theorem firstDedup_optTruthyList (pv : Option String) :
    firstDedup (optTruthyList pv) = optTruthyList pv := by
  cases pv with
  | none => rfl
  | some v =>
    by_cases hv : v.isEmpty
    · rw [show optTruthyList (some v) = [] by simp [optTruthyList, hv]]
      rfl
    · rw [show optTruthyList (some v) = [v] by simp [optTruthyList, hv]]
      rfl

/-- The Set contents computed by formatResponse coincide with the
specification-side distinct value list. -/
theorem collectValues_eq_specValues (pv : Option String) (cs : List Contact)
    (proj : Contact → Option String) :
    collectValues pv cs proj = specValues pv cs proj := by
  unfold collectValues specValues
  rw [firstDedup_append, firstDedup_optTruthyList, collect_foldl_eq]

/-- Putting the primary's value first and filtering it from the Set contents
reproduces the Set contents unchanged, the primary's value already being
first. -/
theorem distinct_collect_id (pv : Option String) (cs : List Contact)
    (proj : Contact → Option String) :
    distinctWithPrimaryFirst pv (collectValues pv cs proj) = collectValues pv cs proj := by
  unfold distinctWithPrimaryFirst collectValues
  rw [collect_foldl_eq]
  obtain ⟨t, ht, hw⟩ := foldl_jsSetAdd_split
    (cs.filterMap (fun c => truthyVal (proj c))) (optTruthyList pv)
  rw [ht]
  have htne : ∀ w ∈ t, w.isEmpty = false := fun w hwt =>
    filterMap_truthy_ne_empty ((hw w hwt).2)
  cases pv with
  | none =>
    rw [show optTruthyList none = [] from rfl]
    simp
  | some v =>
    by_cases hve : v.isEmpty
    · have hopt : optTruthyList (some v) = [] := by simp [optTruthyList, hve]
      rw [hopt]
      simp only [List.nil_append]
      rw [List.filter_eq_self.mpr]
      intro w hwt
      have h1 : w.isEmpty = false := htne w hwt
      have h2 : w ≠ v := fun hcon => by rw [hcon, hve] at h1; exact Bool.noConfusion h1
      simp [h2]
    · have hopt : optTruthyList (some v) = [v] := by simp [optTruthyList, hve]
      rw [hopt] at hw ⊢
      simp only [List.cons_append, List.nil_append, List.filter_cons]
      have hvv : (!(some v == some v)) = false := by simp
      rw [hvv]
      simp only [Bool.false_eq_true, if_false]
      congr 1
      rw [List.filter_eq_self.mpr]
      intro w hwt
      have h2 : w ≠ v := fun hcon =>
        (hw w hwt).1 (by rw [hcon]; exact List.mem_singleton.mpr rfl)
      simp [h2]

/-- formatResponse rendered through the specification-side definitions: the
primary's id, the distinct truthy emails and phone numbers of the listed
cluster with the primary's own value first, and the ascending ids of the
listed secondaries. -/
theorem formatResponse_spec (primary : Contact) (secs : List Contact) :
    formatResponse primary secs =
      { primaryContactId := primary.id
        emails := specValues primary.email (primary :: secs) (fun c => c.email)
        phoneNumbers :=
          specValues primary.phoneNumber (primary :: secs) (fun c => c.phoneNumber)
        secondaryContactIds := sortNatAsc (secs.map (fun c => c.id)) } := by
  simp only [formatResponse]
  rw [distinct_collect_id, distinct_collect_id,
    collectValues_eq_specValues, collectValues_eq_specValues]

/-- Looking up a freshly appended row by its id succeeds when no earlier row
carries that id. -/
theorem find?_id_append_self (c : Contact) :
    ∀ (l : List Contact), (∀ r ∈ l, r.id ≠ c.id) →
      (l ++ [c]).find? (fun r => r.id == c.id) = some c := by
  intro l
  induction l with
  | nil => intro _; simp [List.find?]
  | cons r rs ih =>
    intro h
    have hr : (r.id == c.id) = false := by
      simpa using h r (List.mem_cons_self r rs)
    rw [List.cons_append]
    rw [List.find?_cons]
    rw [hr]
    exact ih (fun x hx => h x (List.mem_cons_of_mem r hx))

/-- findById of the just-created row on the post-creation store. -/
theorem findById_saveNew_self {s : Store} {c : Contact}
    (hne : ∀ r ∈ s.rows, r.id ≠ c.id) :
    findById (saveNew s c) c.id = some c :=
  find?_id_append_self c s.rows hne

/-- The just-created row has no secondaries when no old row links to its id
and it links nowhere itself. -/
theorem secondariesOf_saveNew_nil {s : Store} {c : Contact}
    (hlink : ∀ r ∈ s.rows, r.linkedId ≠ some c.id) (hc : c.linkedId = none) :
    secondariesOf (saveNew s c) c.id = [] := by
  unfold secondariesOf saveNew
  rw [List.filter_append]
  have h1 : s.rows.filter (fun r => r.linkedId == some c.id) = [] :=
    List.filter_eq_nil_iff.mpr (fun r hr => by simpa using hlink r hr)
  have h2 : [c].filter (fun r => r.linkedId == some c.id) = [] := by
    simp [hc]
  rw [h1, h2]
  rfl

/-- C8: on every successful invocation against a well-formed store, the
response is the consolidated view of the final cluster of the returned
primary id: its emails are exactly the distinct truthy emails of the primary
and its current secondaries with the primary's own email first in encounter
order, likewise for phone numbers, and its secondaryContactIds are the
ascending ids of those secondaries, any just-created record included. -/
theorem c8_response_shape (s : Store) (now : Nat) (email phoneNumber : Option String)
    (s2 : Store) (resp : ConsolidatedContact)
    (hwf : WellFormed s)
    (hok : identifyContact s now email phoneNumber = Except.ok (s2, resp)) :
    ∃ fp, findById s2 resp.primaryContactId = some fp ∧
      resp.primaryContactId = fp.id ∧
      resp.emails = specValues fp.email (fp :: secondariesOf s2 fp.id) (fun c => c.email) ∧
      resp.phoneNumbers =
        specValues fp.phoneNumber (fp :: secondariesOf s2 fp.id) (fun c => c.phoneNumber) ∧
      resp.secondaryContactIds =
        sortNatAsc ((secondariesOf s2 fp.id).map (fun c => c.id)) := by
  cases hcond : (!truthy email && !truthy phoneNumber) with
  | true =>
    unfold identifyContact at hok
    rw [hcond] at hok
    simp at hok
  | false =>
    by_cases hemp : existingOf s email phoneNumber = []
    · unfold identifyContact at hok
      rw [hcond] at hok
      simp only [Bool.false_eq_true, if_false] at hok
      rw [if_pos hemp] at hok
      injection hok with hpair
      injection hpair with hs2 hresp
      subst hs2
      subst hresp
      have hsec : secondariesOf (saveNew s (newPrimary s now email phoneNumber))
          (newPrimary s now email phoneNumber).id = [] := by
        refine secondariesOf_saveNew_nil ?_ rfl
        intro r hr hcon
        exact absurd ((hwf r hr).2 _ hcon) (lt_irrefl _)
      refine ⟨newPrimary s now email phoneNumber, ?_, rfl, ?_, ?_, ?_⟩
      · exact findById_saveNew_self (fun r hr => Nat.ne_of_lt ((hwf r hr).1))
      · rw [formatResponse_spec, hsec]
      · rw [formatResponse_spec, hsec]
      · rw [formatResponse_spec, hsec]
    · obtain ⟨fp, hfp, hfpid, hshape⟩ := identify_ok_shape s now email phoneNumber hemp
      rw [hshape] at hok
      injection hok with hpair
      injection hpair with hs2 hresp
      subst hs2
      subst hresp
      refine ⟨fp, ?_, rfl, ?_, ?_, ?_⟩
      · show findById (finalStoreOf s now email phoneNumber) fp.id = some fp
        rw [hfpid]
        exact hfp
      · rw [formatResponse_spec]
      · rw [formatResponse_spec]
      · rw [formatResponse_spec]

/-- Witness for C8 on the empty store with only an email submitted. -/
theorem c8_response_shape_witness :
    (WellFormed emptyStore ∧
      identifyContact emptyStore 1 (some "a") none = Except.ok (w8Store, w8Resp)) ∧
    ∃ fp, findById w8Store w8Resp.primaryContactId = some fp ∧
      w8Resp.primaryContactId = fp.id ∧
      w8Resp.emails = specValues fp.email (fp :: secondariesOf w8Store fp.id)
        (fun c => c.email) ∧
      w8Resp.phoneNumbers = specValues fp.phoneNumber (fp :: secondariesOf w8Store fp.id)
        (fun c => c.phoneNumber) ∧
      w8Resp.secondaryContactIds =
        sortNatAsc ((secondariesOf w8Store fp.id).map (fun c => c.id)) :=
  ⟨⟨fun r hr => absurd hr (List.not_mem_nil r), rfl⟩,
    c8_response_shape emptyStore 1 (some "a") none w8Store w8Resp
      (fun r hr => absurd hr (List.not_mem_nil r)) rfl⟩

/-- The fetched store trivially preserves its own frame. -/
theorem framePreserved_refl (base : Store) (touched : List Nat) :
    FramePreserved base touched base :=
  ⟨rfl, fun _ _ _ => ⟨rfl, rfl, rfl, rfl, rfl, Or.inl ⟨rfl, rfl⟩⟩⟩

/-- A justified repository update preserves the frame. -/
theorem saveRow_framePreserved {base t : Store} {touched : List Nat} {c : Contact} {now : Nat}
    (hnd : (base.rows.map Contact.id).Nodup)
    (hfp : FramePreserved base touched t) (hok : SaveOK base touched c) :
    FramePreserved base touched (saveRow t c now) := by
  obtain ⟨hlen, hfields⟩ := hfp
  obtain ⟨orig, horig, hoid, hoe, hop, hoc, hod, hotouch⟩ := hok
  refine ⟨by simpa [saveRow] using hlen, ?_⟩
  intro i h h2
  have h2t : i < t.rows.length := by simpa [saveRow] using h2
  have hget : (saveRow t c now).rows[i] =
      if t.rows[i].id = c.id then { c with updatedAt := now } else t.rows[i] := by
    simp [saveRow]
  obtain ⟨hid, hem, hph, hcr, hde, hlink⟩ := hfields i h h2t
  by_cases hrc : t.rows[i].id = c.id
  · rw [hget, if_pos hrc]
    have horig2 : orig = base.rows[i] := by
      refine List.inj_on_of_nodup_map hnd horig (List.getElem_mem h) ?_
      rw [hoid, ← hid]
      exact hrc.symm
    refine ⟨?_, ?_, ?_, ?_, ?_, ?_⟩
    · show c.id = base.rows[i].id
      rw [← hoid, horig2]
    · show c.email = base.rows[i].email
      rw [hoe, horig2]
    · show c.phoneNumber = base.rows[i].phoneNumber
      rw [hop, horig2]
    · show c.createdAt = base.rows[i].createdAt
      rw [hoc, horig2]
    · show c.deletedAt = base.rows[i].deletedAt
      rw [hod, horig2]
    · right
      rw [← horig2]
      exact hotouch
  · rw [hget, if_neg hrc]
    exact ⟨hid, hem, hph, hcr, hde, hlink⟩

/-- The re-pointing fold of a merge preserves the frame when every re-pointed
entity is justified. -/
theorem repointFold_framePreserved {base : Store} {touched : List Nat}
    (hnd : (base.rows.map Contact.id).Nodup) (chosenId now : Nat) :
    ∀ (secs : List Contact),
      (∀ sec ∈ secs, SaveOK base touched { sec with linkedId := some chosenId }) →
      ∀ {t : Store}, FramePreserved base touched t →
        FramePreserved base touched
          (secs.foldl (fun u sec => saveRow u { sec with linkedId := some chosenId } now) t) := by
  intro secs
  induction secs with
  | nil => intro _ t h; exact h
  | cons x xs ih =>
    intro hsave t hfp
    rw [List.foldl_cons]
    exact ih (fun sec hs => hsave sec (List.mem_cons_of_mem _ hs))
      (saveRow_framePreserved hnd hfp (hsave x (List.mem_cons_self _ _)))

/-- Demoting one touched primary and re-pointing its loaded secondaries
preserves the frame. -/
theorem demoteOne_framePreserved {s t : Store} {touched : List Nat} {chosenId now : Nat}
    (hnd : (s.rows.map Contact.id).Nodup) {other : LoadedContact}
    (hgood : GoodEntity s other) (htouch : other.data.id ∈ touched)
    (hfp : FramePreserved s touched t) :
    FramePreserved s touched (demoteOne chosenId now t other) := by
  obtain ⟨d, sc⟩ := other
  obtain ⟨hmem, hrel⟩ := hgood
  have hsave1 : SaveOK s touched
      { d with linkedId := some chosenId, linkPrecedence := LinkPrecedence.secondary } :=
    ⟨d, hmem, rfl, rfl, rfl, rfl, rfl, Or.inl htouch⟩
  cases sc with
  | none => exact saveRow_framePreserved hnd hfp hsave1
  | some secs =>
    have hsecs : secs = secondariesOf s d.id := by
      rcases hrel with hr | hr
      · exact absurd hr (by simp)
      · exact Option.some.inj hr
    refine repointFold_framePreserved hnd chosenId now secs ?_
      (saveRow_framePreserved hnd hfp hsave1)
    intro sec hs
    rw [hsecs] at hs
    have hsec_mem : sec ∈ s.rows := List.mem_of_mem_filter hs
    have hsec_link : sec.linkedId = some d.id := by
      simpa using List.of_mem_filter hs
    exact ⟨sec, hsec_mem, rfl, rfl, rfl, rfl, rfl, Or.inr ⟨d.id, htouch, hsec_link⟩⟩

/-- The whole merge fold preserves the frame when every demoted entity is a
good, touched entity. -/
theorem mergeStore_framePreserved {s : Store} {touched : List Nat} {now chosenId : Nat}
    (hnd : (s.rows.map Contact.id).Nodup) :
    ∀ (others : List LoadedContact),
      (∀ o ∈ others, GoodEntity s o ∧ o.data.id ∈ touched) →
      ∀ {t : Store}, FramePreserved s touched t →
        FramePreserved s touched (mergeStore t now chosenId others) := by
  intro others
  induction others with
  | nil => intro _ t h; exact h
  | cons x xs ih =>
    intro hall t hfp
    unfold mergeStore at ih ⊢
    rw [List.foldl_cons]
    exact ih (fun o ho => hall o (List.mem_cons_of_mem _ ho))
      (demoteOne_framePreserved hnd (hall x (List.mem_cons_self _ _)).1
        (hall x (List.mem_cons_self _ _)).2 hfp)

/-- The merge step of one invocation preserves the frame with the demoted ids
as the touched set. -/
theorem mergedStoreOf_framePreserved {s : Store} {now : Nat}
    {email phoneNumber : Option String}
    (hnd : (s.rows.map Contact.id).Nodup) :
    FramePreserved s (demotedIdsOf s email phoneNumber)
      (mergedStoreOf s now email phoneNumber) := by
  unfold mergedStoreOf
  refine mergeStore_framePreserved hnd _ ?_ (framePreserved_refl s _)
  intro o ho
  have ho2 : o ∈ primariesOf s email phoneNumber := List.mem_of_mem_drop ho
  exact ⟨good_of_mem_existing (List.mem_of_mem_filter ho2),
    List.mem_map.mpr ⟨o, ho, rfl⟩⟩

/-- C10: an invocation never removes a row or moves one from its position,
and never changes a pre-existing row's id, email, phoneNumber, createdAt or
deletedAt; a pre-existing row whose linkPrecedence or linkedId changed is
either a primary demoted by the merge or a row that linked to one. -/
theorem c10_frame (s : Store) (now : Nat) (email phoneNumber : Option String)
    (s2 : Store) (resp : ConsolidatedContact)
    (hnd : (s.rows.map Contact.id).Nodup)
    (hok : identifyContact s now email phoneNumber = Except.ok (s2, resp)) :
    s.rows.length ≤ s2.rows.length ∧
    ∀ i (h : i < s.rows.length) (h2 : i < s2.rows.length),
      s2.rows[i].id = s.rows[i].id ∧
      s2.rows[i].email = s.rows[i].email ∧
      s2.rows[i].phoneNumber = s.rows[i].phoneNumber ∧
      s2.rows[i].createdAt = s.rows[i].createdAt ∧
      s2.rows[i].deletedAt = s.rows[i].deletedAt ∧
      (s2.rows[i].linkPrecedence = s.rows[i].linkPrecedence ∧
          s2.rows[i].linkedId = s.rows[i].linkedId ∨
        s.rows[i].id ∈ demotedIdsOf s email phoneNumber ∨
        ∃ d ∈ demotedIdsOf s email phoneNumber, s.rows[i].linkedId = some d) := by
  cases hcond : (!truthy email && !truthy phoneNumber) with
  | true =>
    unfold identifyContact at hok
    rw [hcond] at hok
    simp at hok
  | false =>
    by_cases hemp : existingOf s email phoneNumber = []
    · unfold identifyContact at hok
      rw [hcond] at hok
      simp only [Bool.false_eq_true, if_false] at hok
      rw [if_pos hemp] at hok
      injection hok with hpair
      injection hpair with hs2 hresp
      subst hs2
      refine ⟨by simp [saveNew], ?_⟩
      intro i h h2
      have hget : (saveNew s (newPrimary s now email phoneNumber)).rows[i] = s.rows[i] := by
        simp only [saveNew]
        exact List.getElem_append_left h
      rw [hget]
      exact ⟨rfl, rfl, rfl, rfl, rfl, Or.inl ⟨rfl, rfl⟩⟩
    · obtain ⟨fp, hfp, hfpid, hshape⟩ := identify_ok_shape s now email phoneNumber hemp
      rw [hshape] at hok
      injection hok with hpair
      injection hpair with hs2 hresp
      subst hs2
      have hm : FramePreserved s (demotedIdsOf s email phoneNumber)
          (mergedStoreOf s now email phoneNumber) := mergedStoreOf_framePreserved hnd
      obtain ⟨hlen, hfields⟩ := hm
      unfold finalStoreOf
      by_cases hflag :
          createNewSecondaryFlag (existingOf s email phoneNumber) email phoneNumber = true
      · rw [if_pos hflag]
        refine ⟨?_, ?_⟩
        · simp only [saveNew, List.length_append, List.length_cons, List.length_nil]
          omega
        · intro i h h2
          have hi : i < (mergedStoreOf s now email phoneNumber).rows.length := by omega
          have hget : (saveNew (mergedStoreOf s now email phoneNumber)
              (newSecondary (mergedStoreOf s now email phoneNumber) now
                (chosenOf s email phoneNumber).id email phoneNumber)).rows[i] =
              (mergedStoreOf s now email phoneNumber).rows[i] := by
            simp only [saveNew]
            exact List.getElem_append_left hi
          rw [hget]
          exact hfields i h hi
      · rw [if_neg hflag]
        exact ⟨le_of_eq hlen, fun i h h2 => hfields i h h2⟩

/-- Witness for C10 on the bridging submission over wStore, whose merge
demotes row 1 under row 2. -/
theorem c10_frame_witness :
    ((wStore.rows.map Contact.id).Nodup ∧
      identifyContact wStore 9 (some "a") (some "q") = Except.ok (w10Store, w10Resp)) ∧
    (wStore.rows.length ≤ w10Store.rows.length ∧
      ∀ i (h : i < wStore.rows.length) (h2 : i < w10Store.rows.length),
        w10Store.rows[i].id = wStore.rows[i].id ∧
        w10Store.rows[i].email = wStore.rows[i].email ∧
        w10Store.rows[i].phoneNumber = wStore.rows[i].phoneNumber ∧
        w10Store.rows[i].createdAt = wStore.rows[i].createdAt ∧
        w10Store.rows[i].deletedAt = wStore.rows[i].deletedAt ∧
        (w10Store.rows[i].linkPrecedence = wStore.rows[i].linkPrecedence ∧
            w10Store.rows[i].linkedId = wStore.rows[i].linkedId ∨
          wStore.rows[i].id ∈ demotedIdsOf wStore (some "a") (some "q") ∨
          ∃ d ∈ demotedIdsOf wStore (some "a") (some "q"),
            wStore.rows[i].linkedId = some d)) :=
  ⟨⟨by decide, rfl⟩,
    c10_frame wStore 9 (some "a") (some "q") w10Store w10Resp (by decide) rfl⟩
